import Mathlib

/-!
Verification model of the terminal rendering engine in `src/util/curses.py`
(repository planetA/eris-euf).

The embedding follows the source faithfully:

* `Curses` models the class-level color-pair registry
  (`Curses._next_pair_number`, `Curses._color_pairs`, with the platform
  constant `curses.COLOR_PAIRS` carried as a field).
* `Window` models one curses window: its dimensions, cursor, the current
  attribute word, and a log of cell writes `(cell index, character code,
  attribute word)`.  Following the data model of the spec, `addstr` treats
  every character as occupying one cell of the grid, advancing the cursor
  linearly with wrap-around; a screen repaint (`refresh`) has no effect on
  this state and is not modelled.
* `Window.print`, `Window.pretty_print`, `Window.new_window`,
  `Window.safe_print` and the sequence interpreters mirror the Python
  methods of the same names, including the dynamic-typing failure of
  `MoveInterpreter.interpret`, which compares the captured digit strings
  against ints (a `TypeError` in Python 3); Python exceptions are modelled
  by `Except PyErr`.
-/

/-- Python runtime errors that the modelled code can raise. -/
inductive PyErr
  | typeError
  | attributeError
  | indexError
deriving DecidableEq

-- Decidable equality on Except, to evaluate the model on concrete runs.
deriving instance DecidableEq for Except

/-- ncurses attribute bit for underline mode (A_UNDERLINE). -/
def A_UNDERLINE : Nat := 1 <<< 17

/-- ncurses attribute bit for reverse video (A_REVERSE). -/
def A_REVERSE : Nat := 1 <<< 18

/-- ncurses attribute bit for blinking (A_BLINK). -/
def A_BLINK : Nat := 1 <<< 19

/-- ncurses attribute bit for dim intensity (A_DIM). -/
def A_DIM : Nat := 1 <<< 20

/-- ncurses attribute bit for bold intensity (A_BOLD). -/
def A_BOLD : Nat := 1 <<< 21

/-- ncurses A_NORMAL: no attribute bits. -/
def A_NORMAL : Nat := 0

/-- Color numbers of Curses.Colors (curses color constants; DEFAULT is -1). -/
def COLOR_DEFAULT : Int := -1

/-- curses.COLOR_BLACK. -/
def COLOR_BLACK : Int := 0

/-- curses.COLOR_RED. -/
def COLOR_RED : Int := 1

/-- curses.COLOR_GREEN. -/
def COLOR_GREEN : Int := 2

/-- curses.COLOR_YELLOW. -/
def COLOR_YELLOW : Int := 3

/-- curses.COLOR_BLUE. -/
def COLOR_BLUE : Int := 4

/-- curses.COLOR_MAGENTA. -/
def COLOR_MAGENTA : Int := 5

/-- curses.COLOR_CYAN. -/
def COLOR_CYAN : Int := 6

/-- curses.COLOR_WHITE. -/
def COLOR_WHITE : Int := 7

/-- Attribute word of curses.color_pair(n): the pair number shifted into the
color field of the attribute word, as in the ncurses COLOR_PAIR macro. -/
def color_pair (n : Nat) : Nat := n <<< 8

/-- Class-level state of the Python class Curses: the color-pair registry.
COLOR_PAIRS is the platform constant curses.COLOR_PAIRS. -/
structure Curses where
  COLOR_PAIRS : Nat
  next_pair_number : Nat
  color_pairs : List ((Int × Int) × Nat)
deriving DecidableEq

/-- Lookup of a (fg, bg) key in the registry dictionary. -/
def Curses.lookup_pair (r : Curses) (fg bg : Int) : Option Nat :=
  r.color_pairs.lookup (fg, bg)

/-- Curses.init_color_pair: register a (fg, bg) pair.  If it is already
known, do nothing.  If the next pair number exceeds COLOR_PAIRS - 1, bind
the key to the default pair-0 handle.  Otherwise bind the next sequential
pair number and advance the counter. -/
def Curses.init_color_pair (r : Curses) (fg bg : Int) : Curses :=
  if (r.lookup_pair fg bg).isSome then r
  else if (r.COLOR_PAIRS : Int) - 1 < (r.next_pair_number : Int) then
    { r with color_pairs := r.color_pairs ++ [((fg, bg), color_pair 0)] }
  else
    { r with
      color_pairs := r.color_pairs ++ [((fg, bg), color_pair r.next_pair_number)],
      next_pair_number := r.next_pair_number + 1 }

/-- Curses.get_color_pair: initialize the pair when unknown, then return the
registered handle together with the updated registry. -/
def Curses.get_color_pair (r : Curses) (fg bg : Int) : Nat × Curses :=
  let r2 := if (r.lookup_pair fg bg).isSome then r else r.init_color_pair fg bg
  ((r2.lookup_pair fg bg).getD 0, r2)

/-- State of one curses window: dimensions, cursor position, current
attribute word, the log of cell writes (cell index in row-major order,
character code, attribute word at the time of the write), and a count of
full-screen clears. -/
structure Window where
  width : Nat
  height : Nat
  cur_x : Nat
  cur_y : Nat
  attrs : Nat
  writes : List (Nat × Nat × Nat)
  clears : Nat
deriving DecidableEq

/-- curses addstr on a window: writes the characters at consecutive cells
starting from the cursor and advances the cursor, wrapping at the right
edge.  Each character occupies one cell (the cell model of the spec). -/
def Window.addstr (w : Window) (cs : List Char) : Window :=
  let p := w.cur_y * w.width + w.cur_x
  { w with
    writes := w.writes ++
      ((List.range cs.length).zip cs).map (fun ic => (p + ic.1, ic.2.toNat, w.attrs)),
    cur_x := (p + cs.length) % w.width,
    cur_y := (p + cs.length) / w.width }

/-- curses addch of a single alternate-character-set code. -/
def Window.addch (w : Window) (code : Nat) : Window :=
  let p := w.cur_y * w.width + w.cur_x
  { w with
    writes := w.writes ++ [(p, code, w.attrs)],
    cur_x := (p + 1) % w.width,
    cur_y := (p + 1) / w.width }

/-- window.move(y, x): place the cursor. -/
def Window.move_to (w : Window) (x y : Nat) : Window :=
  { w with cur_x := x, cur_y := y }

/-- window.attron(a): turn attribute bits on. -/
def Window.attron (w : Window) (a : Nat) : Window :=
  { w with attrs := w.attrs ||| a }

/-- window.attrset(0): reset every attribute bit. -/
def Window.attrset0 (w : Window) : Window :=
  { w with attrs := 0 }

/-- window.clear(): erase the window; the cursor returns to the origin. -/
def Window.clear_screen (w : Window) : Window :=
  { w with cur_x := 0, cur_y := 0, clears := w.clears + 1 }

/-- Line-break characters of the Python str.splitlines boundary set. -/
def isLineBreak (c : Char) : Bool :=
  c = '\n' || c = '\r' || c = '\x0b' || c = '\x0c' ||
  c = '\x1c' || c = '\x1d' || c = '\x1e' || c = '\x85' ||
  c = '\u2028' || c = '\u2029'

/-- Python str.splitlines(keepends=True): split at line boundaries, keeping
the terminator with its line; a CR-LF pair is one boundary. -/
def splitlines : List Char → List Char → List (List Char)
  | [], acc => if acc.isEmpty then [] else [acc.reverse]
  | '\r' :: '\n' :: rest, acc => (acc.reverse ++ ['\r', '\n']) :: splitlines rest []
  | c :: rest, acc =>
    if isLineBreak c then (acc.reverse ++ [c]) :: splitlines rest []
    else splitlines rest (c :: acc)

/-- Whitespace characters stripped by Python str.rstrip: the characters on
which Python str.isspace is true (space, the \\t-\\r controls, the \\x1c-\\x1f
separators, next line, no-break space, ogham space mark, the en-quad to
hair-space range, the line and paragraph separators, narrow no-break
space, medium mathematical space, and ideographic space). -/
def pySpace (c : Char) : Bool :=
  c = ' ' || c = '\t' || c = '\n' || c = '\r' || c = '\x0b' || c = '\x0c' ||
  c = '\x1c' || c = '\x1d' || c = '\x1e' || c = '\x1f' || c = '\x85' || c = '\xa0' ||
  c = '\u1680' || (0x2000 <= c.toNat && c.toNat <= 0x200a) ||
  c = '\u2028' || c = '\u2029' || c = '\u202f' || c = '\u205f' || c = '\u3000'

/-- Python str.rstrip(): remove every trailing whitespace character. -/
def rstrip (cs : List Char) : List Char :=
  (cs.reverse.dropWhile pySpace).reverse

/-- Python slice line[:e] for a possibly negative bound e, as produced by
the signed arithmetic of Window.print. -/
def pyTake (cs : List Char) (e : Int) : List Char :=
  if e < 0 then cs.take ((cs.length : Int) + e).toNat
  else cs.take e.toNat

/-- Loop body of Window.print over the split lines.  For each line the
resulting row is computed as cur_y + (cur_x + len) / width; depending on
whether it lies before, on, or past the last row, the line is written
whole, written with rstrip applied, or cut to the cells that remain.  The
comparisons are over the integers, as in Python. -/
def printLines (w : Window) : List (List Char) → Window × Bool
  | [] => (w, true)
  | line :: rest =>
    let length := line.length
    let new_y := w.cur_y + (w.cur_x + length) / w.width
    if (new_y : Int) < (w.height : Int) - 1 then
      printLines (w.addstr line) rest
    else if (new_y : Int) = (w.height : Int) - 1 then
      (w.addstr (rstrip line), false)
    else
      let e : Int := ((w.width : Int) - (w.cur_x : Int)) +
        (((w.height : Int) - 1) - (w.cur_y : Int)) * (w.width : Int)
      (w.addstr (pyTake line e), false)

/-- Window.print: optionally move the cursor, then write the string line by
line until the end of the string or of the screen; the Bool reports whether
the whole string was written. -/
def Window.print (w : Window) (s : String) (pos : Option (Nat × Nat)) : Window × Bool :=
  let w2 := match pos with
    | some xy => w.move_to xy.1 xy.2
    | none => w
  printLines w2 (splitlines s.data [])

/-- Window.pretty_print: reset all attributes, turn on the requested modes
and the resolved color pair, delegate to Window.print, then reset all
attributes again.  Omitted fg and bg default to Colors.DEFAULT. -/
def Window.pretty_print (w : Window) (r : Curses) (s : String)
    (pos : Option (Nat × Nat)) (fg bg : Option Int) (modes : List Nat) :
    (Window × Curses) × Bool :=
  let fgv := fg.getD COLOR_DEFAULT
  let bgv := bg.getD COLOR_DEFAULT
  let w1 := w.attrset0
  let w2 := modes.foldl Window.attron w1
  let pr := r.get_color_pair fgv bgv
  let w3 := w2.attron pr.1
  let res := w3.print s pos
  ((res.1.attrset0, pr.2), res.2)

/-- Window.new_window: validate the child rectangle against the parent
dimensions, each bound independently and in order x, y, width, height;
omitted width and height default to the space remaining from (x, y).  On
success the requested rectangle is returned. -/
def Window.new_window (win : Window) (x y : Int)
    (width? height? : Option Int) : Except String (Int × Int × Int × Int) :=
  let w : Int := win.width
  let h : Int := win.height
  let width := width?.getD (w - x)
  let height := height?.getD (h - y)
  if x < 0 ∨ x > w then .error "x is out of range"
  else if y < 0 ∨ y > h then .error "y is out of range"
  else if width < 0 ∨ width > w - x then .error "width is out of range"
  else if height < 0 ∨ height > h - y then .error "height is out of range"
  else .ok (x, y, width, height)

/-- Values of the dynamic Python fragment the move interpreter manipulates:
the regex captures are str, the window bounds are int. -/
inductive PyVal
  | int (n : Int)
  | str (s : List Char)

/-- Lexicographic comparison of Python strings (used only to make the
dynamic comparison total; this program never compares two strings). -/
def strLeB : List Char → List Char → Bool
  | [], _ => true
  | _ :: _, [] => false
  | a :: as, b :: bs => if a = b then strLeB as bs else decide (a < b)

/-- Python comparison a >= b: defined between two ints or two strings,
a TypeError between mismatched types (Python 3 semantics). -/
def pyGe : PyVal → PyVal → Except PyErr Bool
  | .int a, .int b => .ok (decide (b ≤ a))
  | .str a, .str b => .ok (strLeB b a)
  | _, _ => .error .typeError

/-- Python comparison a < b: defined between two ints or two strings,
a TypeError between mismatched types (Python 3 semantics). -/
def pyLt : PyVal → PyVal → Except PyErr Bool
  | .int a, .int b => .ok (decide (a < b))
  | .str a, .str b => .ok (strLeB a b && !decide (a = b))
  | _, _ => .error .typeError

/-- States of the scan for the mode regex body `([0-9]+;?)+m`: at the start
of a group, after a digit, or right after a separating semicolon. -/
inductive MState
  | start
  | afterDigit
  | afterSemi
deriving DecidableEq

/-- Scan for the mode regex body after the leading ESC [: consumes groups
of digits separated by single semicolons until the final m, returning the
number of characters consumed (the m included). -/
def modeScan : List Char → MState → Option Nat
  | [], _ => none
  | c :: rest, st =>
    if c.isDigit then (modeScan rest MState.afterDigit).map (fun n => n + 1)
    else if c = ';' then
      match st with
      | MState.afterDigit => (modeScan rest MState.afterSemi).map (fun n => n + 1)
      | _ => none
    else if c = 'm' then
      match st with
      | MState.start => none
      | _ => some 1
    else none

/-- Match of the ModeInterpreter regex `ESC [ ([0-9]+;?)+ m` at the head of
the residual text: the length of the matched sequence. -/
def modeMatchLen : List Char → Option Nat
  | '\x1b' :: '[' :: rest => (modeScan rest MState.start).map (fun n => n + 2)
  | _ => none

/-- Match of the MoveInterpreter regex `ESC [ ([0-9]+) ; ([0-9]+) H` at the
head of the residual text: the two digit captures (row then column). -/
def moveMatch (cs : List Char) : Option (List Char × List Char) :=
  match cs with
  | '\x1b' :: '[' :: rest =>
    let ys := rest.takeWhile Char.isDigit
    if ys.isEmpty then none
    else
      match rest.drop ys.length with
      | ';' :: rest2 =>
        let xs := rest2.takeWhile Char.isDigit
        if xs.isEmpty then none
        else
          match rest2.drop xs.length with
          | 'H' :: _ => some (ys, xs)
          | _ => none
      | _ => none
  | _ => none

/-- Match of the ClearInterpreter regex `ESC [ [0-9] J` at the head of the
residual text: the single digit capture.  The match is always 4 characters
long. -/
def clearMatch : List Char → Option Char
  | '\x1b' :: '[' :: d :: 'J' :: _ => if d.isDigit then some d else none
  | _ => none

/-- Parenthesis alternatives of the graphics regex. -/
def gParen (c : Char) : Bool := c = '(' || c = ')'

/-- Charset-code alternatives of the graphics regex. -/
def gCode (c : Char) : Bool := c = 'A' || c = 'B' || c = '0' || c = '1' || c = '2'

/-- Match of the GraphicsInterpreter regex
`ESC (\( or \)) (A|B|0|1|2) . ESC (\( or \)) (A|B|0|1|2)` at the head of
the residual text: the middle character (the dot never matches a newline).
The match is always 7 characters long. -/
def graphicsMatch : List Char → Option Char
  | '\x1b' :: p1 :: c1 :: mid :: '\x1b' :: p2 :: c2 :: _ =>
    if gParen p1 && gCode c1 && mid != '\n' && gParen p2 && gCode c2 then some mid
    else none
  | _ => none

/-- Alternate-character-set marker of ncurses attribute words. -/
def ACS_MARK : Nat := 1 <<< 22

/-- ACS glyph table of GraphicsInterpreter.interpret: line-drawing codes. -/
def acsGlyph (c : Char) : Option Nat :=
  if c = '\x71' then some (ACS_MARK + 0x71)      -- ACS_HLINE
  else if c = '\x78' then some (ACS_MARK + 0x78) -- ACS_VLINE
  else if c = '\x6A' then some (ACS_MARK + 0x6A) -- ACS_LRCORNER
  else if c = '\x6B' then some (ACS_MARK + 0x6B) -- ACS_URCORNER
  else if c = '\x6C' then some (ACS_MARK + 0x6C) -- ACS_ULCORNER
  else if c = '\x6D' then some (ACS_MARK + 0x6D) -- ACS_LLCORNER
  else if c = '\x6E' then some (ACS_MARK + 0x6E) -- ACS_PLUS
  else if c = '\x74' then some (ACS_MARK + 0x74) -- ACS_LTEE
  else if c = '\x75' then some (ACS_MARK + 0x75) -- ACS_RTEE
  else if c = '\x76' then some (ACS_MARK + 0x76) -- ACS_BTEE
  else if c = '\x77' then some (ACS_MARK + 0x77) -- ACS_TTEE
  else none

/-- Foreground color table of ModeInterpreter.interpret. -/
def fgColor (o : List Char) : Option Int :=
  if o = ['3', '0'] then some COLOR_BLACK
  else if o = ['3', '1'] then some COLOR_RED
  else if o = ['3', '2'] then some COLOR_GREEN
  else if o = ['3', '3'] then some COLOR_YELLOW
  else if o = ['3', '4'] then some COLOR_BLUE
  else if o = ['3', '5'] then some COLOR_MAGENTA
  else if o = ['3', '6'] then some COLOR_CYAN
  else if o = ['3', '7'] then some COLOR_WHITE
  else if o = ['3', '9'] then some COLOR_DEFAULT
  else none

/-- Background color table of ModeInterpreter.interpret. -/
def bgColor (o : List Char) : Option Int :=
  if o = ['4', '0'] then some COLOR_BLACK
  else if o = ['4', '1'] then some COLOR_RED
  else if o = ['4', '2'] then some COLOR_GREEN
  else if o = ['4', '3'] then some COLOR_YELLOW
  else if o = ['4', '4'] then some COLOR_BLUE
  else if o = ['4', '5'] then some COLOR_MAGENTA
  else if o = ['4', '6'] then some COLOR_CYAN
  else if o = ['4', '7'] then some COLOR_WHITE
  else if o = ['4', '9'] then some COLOR_DEFAULT
  else none

/-- Attribute table of ModeInterpreter.interpret. -/
def attrCode (o : List Char) : Option Nat :=
  if o = ['1'] then some A_BOLD
  else if o = ['2'] then some A_DIM
  else if o = ['2', '2'] then some A_NORMAL
  else none

/-- Accumulator of the option loop of ModeInterpreter.interpret: the
pending foreground and background selections and the window. -/
structure MFold where
  fg : Int
  bg : Int
  win : Window

/-- One option of a mode sequence: a foreground color, a background color,
an attribute (turned on at once), a full reset, or ignored. -/
def modeStep (st : MFold) (o : List Char) : MFold :=
  match fgColor o with
  | some c => { st with fg := c }
  | none =>
    match bgColor o with
    | some c => { st with bg := c }
    | none =>
      match attrCode o with
      | some a => { st with win := st.win.attron a }
      | none =>
        if o = ['0'] then
          { fg := COLOR_DEFAULT, bg := COLOR_DEFAULT, win := st.win.attrset0 }
        else st

/-- ModeInterpreter.interpret: process each semicolon-separated option of
the matched sequence, then turn on the resolved color pair; returns the
position after the sequence.  A missing match would be an AttributeError
(None.group in Python); safe_print only calls this after can_interpret. -/
def mode_interpret (s : List Char) (pos : Nat) (w : Window) (r : Curses) :
    Except PyErr ((Window × Curses) × Nat) :=
  match modeMatchLen (s.drop pos) with
  | none => .error .attributeError
  | some len =>
    let inner := (((s.drop pos).take len).drop 2).dropLast
    let opts := inner.splitOn ';'
    let st := opts.foldl modeStep { fg := COLOR_DEFAULT, bg := COLOR_DEFAULT, win := w }
    let gp := r.get_color_pair st.fg st.bg
    .ok ((st.win.attron gp.1, gp.2), pos + len)

/-- MoveInterpreter.interpret: after the regex match, the Python code
compares the captured substrings, which are str, against the int bounds
(`x >= 0 and y >= 0 and x < width and y < height`); in Python 3 the very
first comparison raises TypeError, so the remaining comparisons, and the
window.move call guarded by them, are unreachable. -/
def move_interpret (s : List Char) (pos : Nat) (w : Window) (r : Curses) :
    Except PyErr ((Window × Curses) × Nat) :=
  match moveMatch (s.drop pos) with
  | none => .error .attributeError
  | some (ys, xs) => do
    let len := ys.length + xs.length + 4
    let b1 ← pyGe (PyVal.str xs) (PyVal.int 0)
    if b1 then
      let b2 ← pyGe (PyVal.str ys) (PyVal.int 0)
      if b2 then
        let b3 ← pyLt (PyVal.str xs) (PyVal.int w.width)
        if b3 then
          let b4 ← pyLt (PyVal.str ys) (PyVal.int w.height)
          if b4 then
            -- window.move(y, x) with the str captures would itself raise;
            -- unreachable, the first comparison above already raised.
            .error .typeError
          else .ok ((w, r), pos + len)
        else .ok ((w, r), pos + len)
      else .ok ((w, r), pos + len)
    else .ok ((w, r), pos + len)

/-- ClearInterpreter.interpret: only clear mode 2 does anything; other
digits are ignored.  Returns the position after the 4-character match. -/
def clear_interpret (s : List Char) (pos : Nat) (w : Window) (r : Curses) :
    Except PyErr ((Window × Curses) × Nat) :=
  match clearMatch (s.drop pos) with
  | none => .error .attributeError
  | some d =>
    let w2 := if d = '2' then w.clear_screen else w
    .ok ((w2, r), pos + 4)

/-- GraphicsInterpreter.interpret: draw the glyph of the middle character
when it is in the table, ignore it otherwise.  Returns the position after
the 7-character match. -/
def graphics_interpret (s : List Char) (pos : Nat) (w : Window) (r : Curses) :
    Except PyErr ((Window × Curses) × Nat) :=
  match graphicsMatch (s.drop pos) with
  | none => .error .attributeError
  | some mid =>
    let w2 := match acsGlyph mid with
      | some g => w.addch g
      | none => w
    .ok ((w2, r), pos + 7)

/-- DefaultInterpreter.interpret: pretty-print the single character at the
position, underlined (its completeness result is discarded), and advance by
one.  Indexing past the end would be an IndexError; safe_print only passes
positions below the length. -/
def default_interpret (s : List Char) (pos : Nat) (w : Window) (r : Curses) :
    Except PyErr ((Window × Curses) × Nat) :=
  match s.drop pos with
  | [] => .error .indexError
  | c :: _ =>
    let res := Window.pretty_print w r (String.mk [c]) none none none [A_UNDERLINE]
    .ok (res.1, pos + 1)

/-- Tags for the five sequence interpreters, in the fixed priority order of
the safe_print chain; dflt is the catch-all DefaultInterpreter. -/
inductive Interp
  | mode
  | move
  | clear
  | graphics
  | dflt
deriving DecidableEq

/-- can_interpret of each interpreter: whether its regex matches the text
at the position; the default interpreter accepts anything. -/
def canInterpret : Interp → List Char → Nat → Bool
  | .mode, s, pos => (modeMatchLen (s.drop pos)).isSome
  | .move, s, pos => (moveMatch (s.drop pos)).isSome
  | .clear, s, pos => (clearMatch (s.drop pos)).isSome
  | .graphics, s, pos => (graphicsMatch (s.drop pos)).isSome
  | .dflt, _, _ => true

/-- The interpreter list of safe_print, in priority order. -/
def interpChain : List Interp := [.mode, .move, .clear, .graphics, .dflt]

/-- Selection of the first interpreter of the chain that recognizes the
text at the position; the default interpreter always matches, so the
fallback of getD is never used. -/
def selectInterp (s : List Char) (pos : Nat) : Interp :=
  (interpChain.find? (fun i => canInterpret i s pos)).getD .dflt

/-- interpret dispatch over the interpreter tag. -/
def interpret : Interp → List Char → Nat → Window → Curses →
    Except PyErr ((Window × Curses) × Nat)
  | .mode => mode_interpret
  | .move => move_interpret
  | .clear => clear_interpret
  | .graphics => graphics_interpret
  | .dflt => default_interpret

/-- clean_up of each interpreter: the mode interpreter resets all
attributes, the others do nothing. -/
def cleanUp : Interp → Window → Window
  | .mode, w => w.attrset0
  | _, w => w

/-- Python string.index of the escape marker from a start position: the
index of the first ESC at or after it (a ValueError, i.e. none, otherwise). -/
def findEsc (s : List Char) (start : Nat) : Option Nat :=
  match (s.drop start).findIdx? (fun c => c = '\x1b') with
  | some i => some (start + i)
  | none => none

/-- Loop of Window.safe_print, with explicit fuel (none signals exhausted
fuel and is never reached, see safe_print_terminates).  Each iteration
prints the plain run before the next escape marker, stopping when the
screen is full, then runs the cleanup of the previous interpreter and the
interpret of the first matching one, which can raise. -/
def safePrintAux : Nat → List Char → Window → Curses → Nat → Interp →
    Option (Except PyErr ((Window × Curses) × Bool))
  | 0, _, _, _, _, _ => none
  | fuel + 1, s, w, r, curPos, cur =>
    if curPos < s.length then
      match findEsc s curPos with
      | none =>
        -- string.index raised ValueError: print the rest and stop.
        let res := printLines w (splitlines (s.drop curPos) [])
        some (.ok ((res.1, r), res.2))
      | some esc =>
        let seg := (s.drop curPos).take (esc - curPos)
        let pr := if 0 < seg.length then printLines w (splitlines seg []) else (w, true)
        if 0 < seg.length ∧ pr.2 = false then
          some (.ok ((pr.1, r), false))
        else
          let w1 := cleanUp cur pr.1
          let tag := selectInterp s esc
          match interpret tag s esc w1 r with
          | .error e => some (.error e)
          | .ok ((w2, r2), pos2) => safePrintAux fuel s w2 r2 pos2 tag
    else
      some (.ok ((w, r), true))

/-- Window.safe_print: optionally move the cursor, scan the string for
escape sequences, dispatching each to the first matching interpreter and
printing the plain runs in between, then reset all attributes (the reset is
skipped when an interpreter raised, as the exception propagates). -/
def Window.safe_print (w : Window) (r : Curses) (s : String)
    (pos : Option (Nat × Nat)) : Except PyErr ((Window × Curses) × Bool) :=
  let w0 := match pos with
    | some xy => w.move_to xy.1 xy.2
    | none => w
  match safePrintAux (s.data.length + 1) s.data w0 r 0 Interp.dflt with
  | some (.ok ((w2, r2), c)) => .ok ((w2.attrset0, r2), c)
  | some (.error e) => .error e
  | none => .error .attributeError  -- fuel exhaustion, never reached

/-- Key events of wait_for_input, after the decoding of get_user_input: a
symbolic key code or a decoded character. -/
inductive KeyV
  | sym (k : Int)
  | ch (c : Char)
deriving DecidableEq

/-- Observable events of the wait_for_input loop: a reaction invoked (by
its handle) or a key yielded to the caller. -/
inductive KEvent
  | invoke (a : Nat)
  | yield (k : KeyV)
deriving DecidableEq

/-- Window.wait_for_input over a stream of read keys: each key with an
entry in the reaction table has its zero-argument action invoked and is not
yielded; every other key is yielded unchanged.  The loop itself never
stops: it processes every key the stream supplies. -/
def wait_for_input (reactions : List (KeyV × Nat)) : List KeyV → List KEvent
  | [] => []
  | k :: ks =>
    match reactions.lookup k with
    | some a => KEvent.invoke a :: wait_for_input reactions ks
    | none => KEvent.yield k :: wait_for_input reactions ks

/-- Removal of exactly the trailing line terminator of a line, and nothing
else.  This follows the wording of the specification (write the line with
its terminator stripped); the code instead applies Python rstrip, which
also removes other trailing whitespace. -/
def stripTerminator (cs : List Char) : List Char :=
  match cs.reverse with
  | '\n' :: '\r' :: rest => rest.reverse
  | c :: rest => if isLineBreak c then rest.reverse else cs
  | [] => []

/-- Position carried by an interpreter result: the returned scan position
on success, the supplied default when the interpreter raised. -/
def posOf (res : Except PyErr ((Window × Curses) × Nat)) (d : Nat) : Nat :=
  match res with
  | .ok x => x.2
  | .error _ => d

/-- In-bounds condition on the position argument of a render call: the
cursor it establishes (or the one already held) lies inside the window. -/
def pos_ok (w : Window) : Option (Nat × Nat) → Prop
  | none => w.cur_x < w.width ∧ w.cur_y < w.height
  | some xy => xy.1 < w.width ∧ xy.2 < w.height

/-! ## Theorems -/

/-- C3.  The code, not the claim, is at fault: on a window of width 10 and
height 10, rendering the in-bounds move sequence ESC [ 2 ; 3 H through
safe_print does not set the cursor to (3, 2); it raises TypeError, because
MoveInterpreter.interpret compares the captured digit substrings, which are
str, against the int bounds (every other method of the class converts its
coordinates with int first, so the comparison as written is a slip). -/
theorem move_sequence_raises_type_error :
    Window.safe_print ⟨10, 10, 0, 0, 0, [], 0⟩ ⟨256, 1, []⟩ "\x1b[2;3H" none
      = .error .typeError := by
  decide

/-- C4.  The code, not the claim, is at fault: safe_print does raise on
some inputs.  It catches only the ValueError of string.index, so the
TypeError raised by MoveInterpreter.interpret on any matched move sequence
propagates to the caller; the input ESC [ 1 ; 1 H on a 5 by 5 window is
such an input. -/
theorem safe_print_raises_on_move_sequence :
    Window.safe_print ⟨5, 5, 0, 0, 0, [], 0⟩ ⟨256, 1, []⟩ "\x1b[1;1H" none
      = .error .typeError := by
  decide

/-- C5.  new_window succeeds, returning exactly the requested rectangle,
if and only if 0 <= x <= parent.width, 0 <= y <= parent.height,
0 <= width <= parent.width - x and 0 <= height <= parent.height - y; and
every failure is an out-of-range error whose message names a dimension
that is in fact violated (x, y, width and height being checked
independently, in this order). -/
theorem new_window_validates (win : Window) (x y wd ht : Int) :
    (Window.new_window win x y (some wd) (some ht) = .ok (x, y, wd, ht) ↔
      (0 ≤ x ∧ x ≤ (win.width : Int) ∧ 0 ≤ y ∧ y ≤ (win.height : Int) ∧
       0 ≤ wd ∧ wd ≤ (win.width : Int) - x ∧ 0 ≤ ht ∧ ht ≤ (win.height : Int) - y))
    ∧ (∀ m : String, Window.new_window win x y (some wd) (some ht) = .error m →
        (m = "x is out of range" ∧ (x < 0 ∨ (win.width : Int) < x)) ∨
        (m = "y is out of range" ∧ (y < 0 ∨ (win.height : Int) < y)) ∨
        (m = "width is out of range" ∧ (wd < 0 ∨ (win.width : Int) - x < wd)) ∨
        (m = "height is out of range" ∧ (ht < 0 ∨ (win.height : Int) - y < ht))) := by
  constructor
  · unfold Window.new_window
    simp only [Option.getD_some]
    split_ifs with h1 h2 h3 h4 <;> simp_all <;> omega
  · intro m hm
    unfold Window.new_window at hm
    simp only [Option.getD_some] at hm
    split_ifs at hm with h1 h2 h3 h4
    · exact Or.inl ⟨by injection hm with h; exact h.symm, by omega⟩
    · exact Or.inr (Or.inl ⟨by injection hm with h; exact h.symm, by omega⟩)
    · exact Or.inr (Or.inr (Or.inl ⟨by injection hm with h; exact h.symm, by omega⟩))
    · exact Or.inr (Or.inr (Or.inr ⟨by injection hm with h; exact h.symm, by omega⟩))

/-- Witness for C5: on a 10 by 8 parent, the child (2, 3, 4, 5) is valid
and new_window returns exactly that rectangle. -/
theorem new_window_validates_witness :
    Window.new_window ⟨10, 8, 0, 0, 0, [], 0⟩ 2 3 (some 4) (some 5) = .ok (2, 3, 4, 5) :=
  (new_window_validates ⟨10, 8, 0, 0, 0, [], 0⟩ 2 3 4 5).1.mpr (by decide)

/-- Lookup in an association list after appending a fresh binding at the
end: when the key was absent, the appended value is found. -/
theorem lookup_append_fresh (l : List ((Int × Int) × Nat)) (k : Int × Int) (v : Nat)
    (h : l.lookup k = none) : (l ++ [(k, v)]).lookup k = some v := by
  induction l with
  | nil => simp [List.lookup]
  | cons p t ih =>
    obtain ⟨q, v2⟩ := p
    rw [List.cons_append]
    rw [List.lookup] at h ⊢
    cases hbeq : (k == q)
    · rw [hbeq] at h
      exact ih h
    · rw [hbeq] at h
      exact Option.noConfusion h

/-- C6.  get_color_pair never fails: after any call the pair is registered;
a known pair returns its cached handle with the registry unchanged; an
unknown pair requested while the next sequential number is still within the
platform maximum is bound to that number; and an unknown pair requested
once the maximum is reached is permanently registered as the pair-0 handle,
to which it also resolves on every later request. -/
theorem get_color_pair_spec (r : Curses) (fg bg : Int) :
    ((r.get_color_pair fg bg).2.lookup_pair fg bg).isSome = true
    ∧ (∀ h, r.lookup_pair fg bg = some h → r.get_color_pair fg bg = (h, r))
    ∧ (r.lookup_pair fg bg = none →
        (r.next_pair_number : Int) ≤ (r.COLOR_PAIRS : Int) - 1 →
        r.get_color_pair fg bg =
          (color_pair r.next_pair_number,
           { r with
             color_pairs := r.color_pairs ++ [((fg, bg), color_pair r.next_pair_number)],
             next_pair_number := r.next_pair_number + 1 }))
    ∧ (r.lookup_pair fg bg = none →
        (r.COLOR_PAIRS : Int) - 1 < (r.next_pair_number : Int) →
        (r.get_color_pair fg bg).1 = color_pair 0
        ∧ (r.get_color_pair fg bg).2.lookup_pair fg bg = some (color_pair 0)
        ∧ ∀ r2 : Curses, r2.lookup_pair fg bg = some (color_pair 0) →
            (r2.get_color_pair fg bg).1 = color_pair 0) := by
  refine ⟨?_, ?_, ?_, ?_⟩
  · cases h : r.lookup_pair fg bg with
    | some v =>
      simp [Curses.get_color_pair, h]
    | none =>
      simp only [Curses.get_color_pair, h, Option.isSome_none, Bool.false_eq_true,
        if_false]
      unfold Curses.init_color_pair
      rw [h]
      simp only [Option.isSome_none, Bool.false_eq_true, if_false]
      split_ifs with hmax
      · simp [Curses.lookup_pair, lookup_append_fresh _ _ _ h]
      · simp [Curses.lookup_pair, lookup_append_fresh _ _ _ h]
  · intro hd h
    simp [Curses.get_color_pair, h]
  · intro h hlt
    simp only [Curses.get_color_pair, h, Option.isSome_none, Bool.false_eq_true,
      if_false]
    unfold Curses.init_color_pair
    rw [h]
    simp only [Option.isSome_none, Bool.false_eq_true, if_false]
    rw [if_neg (by omega)]
    simp [Curses.lookup_pair, lookup_append_fresh _ _ _ h]
  · intro h hge
    simp only [Curses.get_color_pair, h, Option.isSome_none, Bool.false_eq_true,
      if_false]
    unfold Curses.init_color_pair
    rw [h]
    simp only [Option.isSome_none, Bool.false_eq_true, if_false]
    rw [if_pos (by omega)]
    refine ⟨?_, ?_, ?_⟩
    · simp [Curses.lookup_pair, lookup_append_fresh _ _ _ h]
    · simp [Curses.lookup_pair, lookup_append_fresh _ _ _ h]
    · intro r2 h2
      simp [Curses.get_color_pair, h2]

/-- Witness for C6: a registry whose maximum of 2 pairs is exhausted
(the next sequential number is 2) resolves the fresh pair (1, 1) to the
pair-0 handle. -/
theorem get_color_pair_spec_witness :
    Curses.lookup_pair ⟨2, 2, [((0, 0), 256)]⟩ 1 1 = none
    ∧ ((2 : Nat) : Int) - 1 < ((2 : Nat) : Int)
    ∧ (Curses.get_color_pair ⟨2, 2, [((0, 0), 256)]⟩ 1 1).1 = color_pair 0 :=
  ⟨by decide, by decide,
   ((get_color_pair_spec ⟨2, 2, [((0, 0), 256)]⟩ 1 1).2.2.2 (by decide) (by decide)).1⟩

/-- C9.  wait_for_input, over any stream of read keys: a key with an entry
in the reaction table has exactly its action invoked at that point and is
not yielded, every other key is yielded unchanged, and the loop never stops
of itself: it emits one event per key read, for ever. -/
theorem wait_for_input_spec (reactions : List (KeyV × Nat)) (inputs : List KeyV) :
    wait_for_input reactions inputs
      = inputs.map (fun k =>
          match reactions.lookup k with
          | some a => KEvent.invoke a
          | none => KEvent.yield k)
    ∧ (wait_for_input reactions inputs).length = inputs.length
    ∧ ∀ k, (reactions.lookup k).isSome = true →
        KEvent.yield k ∉ wait_for_input reactions inputs := by
  induction inputs with
  | nil => exact ⟨rfl, rfl, fun k _ h => by simp [wait_for_input] at h⟩
  | cons a t ih =>
    refine ⟨?_, ?_, ?_⟩
    · simp only [wait_for_input, List.map]
      cases h : reactions.lookup a <;> simp [ih.1]
    · simp only [wait_for_input]
      cases h : reactions.lookup a <;> simp [ih.2.1]
    · intro k hk
      have ihk := ih.2.2 k hk
      simp only [wait_for_input]
      cases h : reactions.lookup a with
      | some v =>
        intro hmem
        rcases List.mem_cons.mp hmem with heq | hmem2
        · exact KEvent.noConfusion heq
        · exact ihk hmem2
      | none =>
        intro hmem
        rcases List.mem_cons.mp hmem with heq | hmem2
        · injection heq with h2
          rw [h2, h] at hk
          simp at hk
        · exact ihk hmem2

/-- Witness for C9: with the reaction table binding the ESC key code 27 to
action 0, reading ESC then the character a invokes the action without
yielding ESC, and yields the character unchanged. -/
theorem wait_for_input_spec_witness :
    wait_for_input [(KeyV.sym 27, 0)] [KeyV.sym 27, KeyV.ch 'a']
      = [KEvent.invoke 0, KEvent.yield (KeyV.ch 'a')] :=
  ((wait_for_input_spec [(KeyV.sym 27, 0)] [KeyV.sym 27, KeyV.ch 'a']).1).trans (by decide)

/-- addstr leaves the width unchanged. -/
theorem addstr_width (w : Window) (cs : List Char) : (w.addstr cs).width = w.width := rfl

/-- addstr leaves the height unchanged. -/
theorem addstr_height (w : Window) (cs : List Char) : (w.addstr cs).height = w.height := rfl

/-- addstr leaves the attribute word unchanged. -/
theorem addstr_attrs (w : Window) (cs : List Char) : (w.addstr cs).attrs = w.attrs := rfl

/-- Cursor column after addstr. -/
theorem addstr_cur_x (w : Window) (cs : List Char) :
    (w.addstr cs).cur_x = (w.cur_y * w.width + w.cur_x + cs.length) % w.width := rfl

/-- Cursor row after addstr. -/
theorem addstr_cur_y (w : Window) (cs : List Char) :
    (w.addstr cs).cur_y = (w.cur_y * w.width + w.cur_x + cs.length) / w.width := rfl

/-- Write log after addstr: the old log with one batch appended. -/
theorem addstr_writes (w : Window) (cs : List Char) :
    (w.addstr cs).writes = w.writes ++
      ((List.range cs.length).zip cs).map
        (fun ic => (w.cur_y * w.width + w.cur_x + ic.1, ic.2.toNat, w.attrs)) := rfl

/-- Membership in the write log after addstr: an old entry, or a new cell
at an offset below the length of the written text, carrying the current
attribute word. -/
theorem mem_addstr (w : Window) (cs : List Char) (e : Nat × Nat × Nat)
    (he : e ∈ (w.addstr cs).writes) :
    e ∈ w.writes ∨
      ((∃ i, i < cs.length ∧ e.1 = w.cur_y * w.width + w.cur_x + i) ∧ e.2.2 = w.attrs) := by
  rw [addstr_writes] at he
  rcases List.mem_append.mp he with h | h
  · exact Or.inl h
  · rcases List.mem_map.mp h with ⟨ic, hic, rfl⟩
    obtain ⟨i, c⟩ := ic
    exact Or.inr ⟨⟨i, List.mem_range.mp (List.of_mem_zip hic).1, rfl⟩, rfl⟩

/-- rstrip never lengthens a line. -/
theorem rstrip_length_le (cs : List Char) : (rstrip cs).length ≤ cs.length := by
  unfold rstrip
  rw [List.length_reverse]
  calc (cs.reverse.dropWhile pySpace).length
      ≤ cs.reverse.length := (List.dropWhile_sublist _).length_le
    _ = cs.length := List.length_reverse cs

/-- The Python slice with a nonnegative bound is an ordinary take. -/
theorem pyTake_nonneg (cs : List Char) (e : Int) (he : 0 ≤ e) :
    pyTake cs e = cs.take e.toNat := by
  rw [pyTake, if_neg (not_lt.mpr he)]

/-- Linear bound of the continue case of Window.print: when the resulting
row lies strictly before the last row, the cursor advance stays a full row
short of the end of the window. -/
theorem case1_arith {W H x y len : Nat} (hW : 0 < W)
    (h : y + (x + len) / W + 1 < H) :
    y * W + x + len + W ≤ W * H := by
  have hdm := Nat.div_add_mod (x + len) W
  set q := (x + len) / W with hq
  set rr := (x + len) % W with hr
  have hrW : rr < W := Nat.mod_lt _ hW
  have h2 : y + q + 2 ≤ H := by omega
  have h3 : (y + q + 2) * W ≤ H * W := Nat.mul_le_mul_right W h2
  have h4 : (y + q + 2) * W = y * W + q * W + W + W := by ring
  have h5 : W * q = q * W := Nat.mul_comm W q
  have h6 : W * H = H * W := Nat.mul_comm W H
  linarith [hdm, hrW, h3, h4, h5, h6]

/-- Linear bound of the last-row case of Window.print: when the resulting
row is exactly the last row, the cursor advance stays inside the window. -/
theorem case2_arith {W H x y len : Nat} (hW : 0 < W)
    (h : y + (x + len) / W + 1 = H) :
    y * W + x + len < W * H := by
  have hdm := Nat.div_add_mod (x + len) W
  set q := (x + len) / W with hq
  set rr := (x + len) % W with hr
  have hrW : rr < W := Nat.mod_lt _ hW
  have h3 : (y + q + 1) * W ≤ H * W := Nat.mul_le_mul_right W (by omega)
  have h4 : (y + q + 1) * W = y * W + q * W + W := by ring
  have h5 : W * q = q * W := Nat.mul_comm W q
  have h6 : W * H = H * W := Nat.mul_comm W H
  linarith [hdm, hrW, h3, h4, h5, h6]

/-- Cell count of the overflow case of Window.print: the cut length is
exactly the number of cells from the cursor to the bottom-right corner. -/
theorem case3_cells {W H x y : Nat} (hx : x < W) (hy : y < H) :
    y * W + x + ((W - x) + (H - 1 - y) * W) = W * H := by
  set k := H - 1 - y with hk
  have h1 : y + 1 + k = H := by omega
  have h2 : (y + 1 + k) * W = y * W + W + k * W := by ring
  have h3 : x + (W - x) = W := by omega
  have h4 : W * H = H * W := Nat.mul_comm W H
  have h5 : H * W = (y + 1 + k) * W := by rw [h1]
  linarith [h2, h3, h4, h5]

/-- Length bound of the overflow case of Window.print: a line whose
resulting row lies past the last row is at least as long as the cell count
from the cursor to the bottom-right corner. -/
theorem case3_len {W H x y len : Nat} (hx : x < W) (hy : y < H)
    (h : H ≤ y + (x + len) / W) :
    (W - x) + (H - 1 - y) * W ≤ len := by
  have hdm := Nat.div_add_mod (x + len) W
  set q := (x + len) / W with hq
  set rr := (x + len) % W with hr
  set k := H - 1 - y with hk
  have hq1 : k + 1 ≤ q := by omega
  have h3 : (k + 1) * W ≤ q * W := Nat.mul_le_mul_right W hq1
  have h4 : (k + 1) * W = k * W + W := by ring
  have h5 : W * q = q * W := Nat.mul_comm W q
  have h6 : x + (W - x) = W := by omega
  linarith [hdm, h3, h4, h5, h6]

/-- Cast of the cell count of the overflow case: the signed arithmetic of
the code equals the unsigned cell count when the cursor is in bounds. -/
theorem case3_cast {W H x y : Nat} (hx : x < W) (hy : y < H) :
    ((W : Int) - (x : Int)) + (((H : Int) - 1) - (y : Int)) * (W : Int)
      = (((W - x) + (H - 1 - y) * W : Nat) : Int) := by
  have h1 : ((W - x : Nat) : Int) = (W : Int) - x := by omega
  have h2 : ((H - 1 - y : Nat) : Int) = (H : Int) - 1 - y := by omega
  rw [Nat.cast_add, Nat.cast_mul, h1, h2]

/-- Membership in the batch of cells appended by one addstr: an offset
below the length of the written text, carrying the current attributes. -/
theorem mem_addstr_batch (w : Window) (cs : List Char) (e : Nat × Nat × Nat)
    (he : e ∈ ((List.range cs.length).zip cs).map
      (fun ic => (w.cur_y * w.width + w.cur_x + ic.1, ic.2.toNat, w.attrs))) :
    (∃ i, i < cs.length ∧ e.1 = w.cur_y * w.width + w.cur_x + i) ∧ e.2.2 = w.attrs := by
  rcases List.mem_map.mp he with ⟨ic, hic, rfl⟩
  obtain ⟨i, c⟩ := ic
  exact ⟨⟨i, List.mem_range.mp (List.of_mem_zip hic).1, rfl⟩, rfl⟩

/-- The print loop leaves the width unchanged. -/
theorem printLines_width : ∀ (L : List (List Char)) (w : Window),
    (printLines w L).1.width = w.width := by
  intro L
  induction L with
  | nil => intro w; rfl
  | cons line rest ih =>
    intro w
    simp only [printLines]
    split_ifs with h1 h2
    · exact ih (w.addstr line)
    · rfl
    · rfl

/-- The print loop leaves the height unchanged. -/
theorem printLines_height : ∀ (L : List (List Char)) (w : Window),
    (printLines w L).1.height = w.height := by
  intro L
  induction L with
  | nil => intro w; rfl
  | cons line rest ih =>
    intro w
    simp only [printLines]
    split_ifs with h1 h2
    · exact ih (w.addstr line)
    · rfl
    · rfl

/-- The print loop leaves the attribute word unchanged. -/
theorem printLines_attrs : ∀ (L : List (List Char)) (w : Window),
    (printLines w L).1.attrs = w.attrs := by
  intro L
  induction L with
  | nil => intro w; rfl
  | cons line rest ih =>
    intro w
    simp only [printLines]
    split_ifs with h1 h2
    · exact ih (w.addstr line)
    · rfl
    · rfl

/-- The print loop only appends to the write log, and every appended entry
carries the attribute word held throughout the loop. -/
theorem printLines_writes_split : ∀ (L : List (List Char)) (w : Window),
    ∃ new, (printLines w L).1.writes = w.writes ++ new
      ∧ ∀ e ∈ new, e.2.2 = w.attrs := by
  intro L
  induction L with
  | nil => intro w; exact ⟨[], by simp [printLines], by simp⟩
  | cons line rest ih =>
    intro w
    simp only [printLines]
    split_ifs with h1 h2
    · obtain ⟨new2, heq, hattr⟩ := ih (w.addstr line)
      refine ⟨((List.range line.length).zip line).map
        (fun ic => (w.cur_y * w.width + w.cur_x + ic.1, ic.2.toNat, w.attrs)) ++ new2,
        ?_, ?_⟩
      · rw [heq, addstr_writes, List.append_assoc]
      · intro e hee
        rcases List.mem_append.mp hee with hb | hn
        · exact (mem_addstr_batch w line e hb).2
        · exact (hattr e hn).trans (addstr_attrs w line)
    · exact ⟨_, addstr_writes w (rstrip line),
        fun e hb => (mem_addstr_batch w (rstrip line) e hb).2⟩
    · exact ⟨_, addstr_writes w _,
        fun e hb => (mem_addstr_batch w _ e hb).2⟩

/-- Safety of the print loop: when the cursor starts inside the window,
every cell the loop writes lies strictly below width * height, the first
cell past the bottom-right corner. -/
theorem printLines_new_writes_lt : ∀ (L : List (List Char)) (w : Window),
    0 < w.width → w.cur_x < w.width → w.cur_y < w.height →
    ∀ e ∈ (printLines w L).1.writes.drop w.writes.length,
      e.1 < w.width * w.height := by
  intro L
  induction L with
  | nil =>
    intro w hW hx hy e he
    simp [printLines, List.drop_length] at he
  | cons line rest ih =>
    intro w hW hx hy e he
    simp only [printLines] at he
    split_ifs at he with h1 h2
    · -- resulting row strictly before the last row: continue on the rest
      have h1' : w.cur_y + (w.cur_x + line.length) / w.width + 1 < w.height := by
        set nv := w.cur_y + (w.cur_x + line.length) / w.width with hnv
        omega
      have harr := case1_arith hW h1'
      obtain ⟨new2, heq, hattr⟩ := printLines_writes_split rest (w.addstr line)
      rw [heq, addstr_writes, List.append_assoc, List.drop_left] at he
      rcases List.mem_append.mp he with hb | hn2
      · obtain ⟨⟨i, hi, hpos⟩, hattr2⟩ := mem_addstr_batch w line e hb
        rw [hpos]
        linarith
      · have he2 : e ∈ (printLines (w.addstr line) rest).1.writes.drop
            (w.addstr line).writes.length := by
          rw [heq, List.drop_left]
          exact hn2
        have hx2 : (w.addstr line).cur_x < (w.addstr line).width := by
          rw [addstr_cur_x, addstr_width]
          exact Nat.mod_lt _ hW
        have hy2 : (w.addstr line).cur_y < (w.addstr line).height := by
          rw [addstr_cur_y, addstr_height]
          rw [Nat.div_lt_iff_lt_mul hW]
          have hc : w.height * w.width = w.width * w.height := Nat.mul_comm _ _
          linarith
        exact ih (w.addstr line) hW hx2 hy2 e he2
    · -- resulting row exactly the last row: rstrip and stop
      have h2' : w.cur_y + (w.cur_x + line.length) / w.width + 1 = w.height := by
        set nv := w.cur_y + (w.cur_x + line.length) / w.width with hnv
        omega
      have harr := case2_arith hW h2'
      rw [addstr_writes, List.drop_left] at he
      obtain ⟨⟨i, hi, hpos⟩, hattr2⟩ := mem_addstr_batch w (rstrip line) e he
      have hsl := rstrip_length_le line
      rw [hpos]
      linarith
    · -- overflow: cut to the remaining cells and stop
      rw [addstr_writes, List.drop_left] at he
      obtain ⟨⟨i, hi, hpos⟩, hattr2⟩ := mem_addstr_batch w _ e he
      have hcast := case3_cast hx hy
      rw [pyTake_nonneg _ _ (by rw [hcast]; exact Int.natCast_nonneg _)] at hi
      rw [hcast, Int.toNat_natCast] at hi
      have hlen : (line.take ((w.width - w.cur_x) + (w.height - 1 - w.cur_y) * w.width)).length
          ≤ (w.width - w.cur_x) + (w.height - 1 - w.cur_y) * w.width := by
        rw [List.length_take]
        exact Nat.min_le_left _ _
      have hcells := case3_cells hx hy
      rw [hpos]
      linarith

/-- C1.  When a line's resulting row (cur_y + (cur_x + length) / width)
exceeds the last row of the Window, the print loop writes exactly
(width - cur_x) + ((height - 1) - cur_y) * width characters of that line
(the cut slice has exactly that length, and the count equals the number of
cells from the cursor to the bottom-right corner), reports incomplete and
stops; and, for every render call with an in-bounds start, no written cell
lies at or past the end of the window. -/
theorem print_overflow_truncates (w : Window) (line : List Char) (rest : List (List Char))
    (_hW : 0 < w.width) (hx : w.cur_x < w.width) (hy : w.cur_y < w.height)
    (hov : w.height ≤ w.cur_y + (w.cur_x + line.length) / w.width) :
    (printLines w (line :: rest)
        = (w.addstr (line.take ((w.width - w.cur_x) + (w.height - 1 - w.cur_y) * w.width)), false)
      ∧ (line.take ((w.width - w.cur_x) + (w.height - 1 - w.cur_y) * w.width)).length
          = (w.width - w.cur_x) + (w.height - 1 - w.cur_y) * w.width
      ∧ w.cur_y * w.width + w.cur_x
          + ((w.width - w.cur_x) + (w.height - 1 - w.cur_y) * w.width) = w.width * w.height)
    ∧ ∀ (s : String) (pos : Option (Nat × Nat)) (w0 : Window),
        0 < w0.width → pos_ok w0 pos →
        ∀ e ∈ (Window.print w0 s pos).1.writes.drop w0.writes.length,
          e.1 < w0.width * w0.height := by
  refine ⟨⟨?_, ?_, ?_⟩, ?_⟩
  · simp only [printLines]
    have hcast := case3_cast hx hy
    split_ifs with h1 h2
    · exfalso
      set nv := w.cur_y + (w.cur_x + line.length) / w.width with hnv
      omega
    · exfalso
      set nv := w.cur_y + (w.cur_x + line.length) / w.width with hnv
      omega
    · rw [hcast, pyTake_nonneg _ _ (Int.natCast_nonneg _), Int.toNat_natCast]
  · rw [List.length_take]
    exact Nat.min_eq_left (case3_len hx hy hov)
  · exact case3_cells hx hy
  · intro s pos w0 hW0 hpos e he
    cases pos with
    | none =>
      exact printLines_new_writes_lt (splitlines s.data []) w0 hW0 hpos.1 hpos.2 e he
    | some xy =>
      exact printLines_new_writes_lt (splitlines s.data [])
        (w0.move_to xy.1 xy.2) hW0 hpos.1 hpos.2 e he

/-- Witness for C1: a 10 by 3 window with the cursor at (5, 2) and a line
of 30 characters overflows (resulting row 5 > 2), and the loop writes the
first (10 - 5) + ((3 - 1) - 2) * 10 = 5 characters and stops. -/
theorem print_overflow_truncates_witness :
    ((0 : Nat) < 10 ∧ (5 : Nat) < 10 ∧ (2 : Nat) < 3
      ∧ (3 : Nat) ≤ 2 + (5 + (String.data "aaaaaaaaaaaaaaaaaaaaaaaaaaaaaa").length) / 10)
    ∧ printLines ⟨10, 3, 5, 2, 0, [], 0⟩ [String.data "aaaaaaaaaaaaaaaaaaaaaaaaaaaaaa"]
        = (Window.addstr ⟨10, 3, 5, 2, 0, [], 0⟩
            ((String.data "aaaaaaaaaaaaaaaaaaaaaaaaaaaaaa").take ((10 - 5) + (3 - 1 - 2) * 10)),
           false) :=
  ⟨⟨by decide, by decide, by decide, by decide⟩,
   (print_overflow_truncates ⟨10, 3, 5, 2, 0, [], 0⟩
     (String.data "aaaaaaaaaaaaaaaaaaaaaaaaaaaaaa") []
     (by decide) (by decide) (by decide) (by decide)).1.1⟩

/-- C2 (amended).  When a line's resulting row equals the last row of the
Window, the print loop writes the line with all trailing whitespace
removed (Python rstrip, which on a line whose only trailing whitespace is
its terminator equals stripping the terminator), reports incomplete and
stops. -/
theorem print_last_row_rstrip (w : Window) (line : List Char) (rest : List (List Char))
    (heq : w.cur_y + (w.cur_x + line.length) / w.width + 1 = w.height) :
    printLines w (line :: rest) = (w.addstr (rstrip line), false) := by
  simp only [printLines]
  split_ifs with h1 h2
  · exfalso
    set nv := w.cur_y + (w.cur_x + line.length) / w.width with hnv
    omega
  · rfl
  · exfalso
    set nv := w.cur_y + (w.cur_x + line.length) / w.width with hnv
    omega

/-- Witness for C2: on a Window of height 3 with the cursor at (0, 2),
rendering the string overflow followed by a newline lands on the last row,
writes exactly the eight characters of overflow with no trailing newline,
and reports incomplete. -/
theorem print_last_row_rstrip_witness :
    (2 + (0 + (String.data "overflow\n").length) / 10 + 1 = 3)
    ∧ printLines ⟨10, 3, 0, 2, 0, [], 0⟩ [String.data "overflow\n"]
        = (Window.addstr ⟨10, 3, 0, 2, 0, [], 0⟩ (rstrip (String.data "overflow\n")), false)
    ∧ rstrip (String.data "overflow\n") = String.data "overflow"
    ∧ Window.print ⟨10, 3, 0, 2, 0, [], 0⟩ "overflow\n" none
        = (Window.addstr ⟨10, 3, 0, 2, 0, [], 0⟩ (String.data "overflow"), false) :=
  ⟨by decide,
   print_last_row_rstrip ⟨10, 3, 0, 2, 0, [], 0⟩ (String.data "overflow\n") [] (by decide),
   by decide, by decide⟩

/-- Counterexample for C2 as stated: the code strips all trailing
whitespace, not only the line terminator.  On a window of width 10 and
height 1 with the cursor at (0, 0), the line ab-space-newline lands on the
last row; stripping only the terminator would write the three characters
ab-space, but the code writes only the two characters ab. -/
theorem print_last_row_not_terminator_only :
    Window.print ⟨10, 1, 0, 0, 0, [], 0⟩ "ab \n" none
        = (Window.addstr ⟨10, 1, 0, 0, 0, [], 0⟩ (String.data "ab"), false)
    ∧ stripTerminator (String.data "ab \n") = String.data "ab "
    ∧ Window.print ⟨10, 1, 0, 0, 0, [], 0⟩ "ab \n" none
        ≠ (Window.addstr ⟨10, 1, 0, 0, 0, [], 0⟩ (stripTerminator (String.data "ab \n")), false) :=
  ⟨by decide, by decide, by decide⟩

/-- Folding attron over a window only accumulates attribute bits. -/
theorem attron_foldl : ∀ (modes : List Nat) (w : Window),
    modes.foldl Window.attron w
      = { w with attrs := modes.foldl (fun a x => a ||| x) w.attrs } := by
  intro modes
  induction modes with
  | nil => intro w; rfl
  | cons m t ih => intro w; exact ih (w.attron m)

/-- C7.  pretty_print resets all attributes, turns on the requested modes
and the resolved color pair, delegates to print on that state, and resets
all attributes again, so its result always carries attribute word 0 and
every cell a subsequent unrelated print writes carries attribute 0. -/
theorem pretty_print_resets_attributes (w : Window) (r : Curses) (s : String)
    (pos : Option (Nat × Nat)) (fg bg : Option Int) (modes : List Nat) :
    (Window.pretty_print w r s pos fg bg modes
        = ((((Window.print
                { w with attrs := (modes.foldl (fun a x => a ||| x) 0)
                    ||| (r.get_color_pair (fg.getD COLOR_DEFAULT) (bg.getD COLOR_DEFAULT)).1 }
                s pos).1.attrset0),
            (r.get_color_pair (fg.getD COLOR_DEFAULT) (bg.getD COLOR_DEFAULT)).2),
           (Window.print
                { w with attrs := (modes.foldl (fun a x => a ||| x) 0)
                    ||| (r.get_color_pair (fg.getD COLOR_DEFAULT) (bg.getD COLOR_DEFAULT)).1 }
                s pos).2))
    ∧ (Window.pretty_print w r s pos fg bg modes).1.1.attrs = 0
    ∧ ∀ (s2 : String) (pos2 : Option (Nat × Nat)),
        ∀ e ∈ (Window.print (Window.pretty_print w r s pos fg bg modes).1.1 s2 pos2).1.writes.drop
            (Window.pretty_print w r s pos fg bg modes).1.1.writes.length,
          e.2.2 = 0 := by
  refine ⟨?_, rfl, ?_⟩
  · simp only [Window.pretty_print, attron_foldl]
    rfl
  · intro s2 pos2 e he
    cases pos2 with
    | none =>
      obtain ⟨new, heq, hattr⟩ := printLines_writes_split (splitlines s2.data [])
        (Window.pretty_print w r s pos fg bg modes).1.1
      rw [show Window.print (Window.pretty_print w r s pos fg bg modes).1.1 s2 none
          = printLines (Window.pretty_print w r s pos fg bg modes).1.1
              (splitlines s2.data []) from rfl, heq, List.drop_left] at he
      exact (hattr e he).trans rfl
    | some xy =>
      obtain ⟨new, heq, hattr⟩ := printLines_writes_split (splitlines s2.data [])
        (((Window.pretty_print w r s pos fg bg modes).1.1).move_to xy.1 xy.2)
      rw [show Window.print (Window.pretty_print w r s pos fg bg modes).1.1 s2 (some xy)
          = printLines (((Window.pretty_print w r s pos fg bg modes).1.1).move_to xy.1 xy.2)
              (splitlines s2.data []) from rfl, heq,
        show (Window.pretty_print w r s pos fg bg modes).1.1.writes.length
          = (((Window.pretty_print w r s pos fg bg modes).1.1).move_to xy.1 xy.2).writes.length
          from rfl,
        List.drop_left] at he
      exact (hattr e he).trans rfl

/-- Witness for C7: a concrete pretty_print run (red on default, bold) on a
10 by 5 window leaves the attribute word at 0. -/
theorem pretty_print_resets_attributes_witness :
    (Window.pretty_print ⟨10, 5, 0, 0, 0, [], 0⟩ ⟨256, 1, []⟩ "hi" none
        (some COLOR_RED) none [A_BOLD]).1.1.attrs = 0 :=
  (pretty_print_resets_attributes ⟨10, 5, 0, 0, 0, [], 0⟩ ⟨256, 1, []⟩ "hi" none
        (some COLOR_RED) none [A_BOLD]).2.1

/-- findIdx? of a predicate no element satisfies is none. -/
theorem findIdx_none_of_forall (p : Char → Bool) : ∀ (l : List Char) (i : Nat),
    (∀ c ∈ l, p c = false) → l.findIdx? p i = none := by
  intro l
  induction l with
  | nil => intro i h; rfl
  | cons a t ih =>
    intro i h
    rw [List.findIdx?_cons, h a (List.mem_cons_self a t)]
    simp only [Bool.false_eq_true, if_false]
    exact ih (i + 1) (fun c hc => h c (List.mem_cons_of_mem a hc))

/-- A string without the escape marker has no escape to find. -/
theorem findEsc_none (s : List Char) (start : Nat)
    (h : ∀ c ∈ s, c ≠ '\x1b') : findEsc s start = none := by
  unfold findEsc
  rw [findIdx_none_of_forall _ _ _
    (fun c hc => by simp [h c (List.mem_of_mem_drop hc)])]

/-- On a string without the escape marker the safe_print loop runs its
very first iteration into the no-escape branch and prints everything. -/
theorem safePrintAux_no_esc (s : List Char) (w : Window) (r : Curses)
    (h : ∀ c ∈ s, c ≠ '\x1b') :
    safePrintAux (s.length + 1) s w r 0 Interp.dflt
      = some (.ok (((printLines w (splitlines s [])).1, r),
          (printLines w (splitlines s [])).2)) := by
  cases s with
  | nil => rfl
  | cons c cs =>
    simp only [safePrintAux]
    rw [if_pos (by simp), findEsc_none _ 0 h]
    rfl

/-- C10.  On input without the escape marker, safe_print performs exactly
the print of the same string at the same position, returns the same
completeness value, and additionally resets the attribute word at the end;
the registry is untouched. -/
theorem safe_print_refines_print (w : Window) (r : Curses) (s : String)
    (pos : Option (Nat × Nat)) (hnoesc : ∀ c ∈ s.data, c ≠ '\x1b') :
    Window.safe_print w r s pos
      = .ok ((((Window.print w s pos).1.attrset0), r), (Window.print w s pos).2) := by
  cases pos with
  | none =>
    show (match safePrintAux (s.data.length + 1) s.data w r 0 Interp.dflt with
      | some (.ok ((w2, r2), c)) => Except.ok ((w2.attrset0, r2), c)
      | some (.error e) => Except.error e
      | none => Except.error PyErr.attributeError)
      = _
    rw [safePrintAux_no_esc s.data w r hnoesc]
    rfl
  | some xy =>
    show (match safePrintAux (s.data.length + 1) s.data (w.move_to xy.1 xy.2) r 0 Interp.dflt with
      | some (.ok ((w2, r2), c)) => Except.ok ((w2.attrset0, r2), c)
      | some (.error e) => Except.error e
      | none => Except.error PyErr.attributeError)
      = _
    rw [safePrintAux_no_esc s.data (w.move_to xy.1 xy.2) r hnoesc]
    rfl

/-- Witness for C10: rendering hi through safe_print on a 10 by 5 window
equals the plain print of hi followed by the attribute reset. -/
theorem safe_print_refines_print_witness :
    (∀ c ∈ (String.data "hi"), c ≠ '\x1b')
    ∧ Window.safe_print ⟨10, 5, 0, 0, 7, [], 0⟩ ⟨256, 1, []⟩ "hi" none
        = .ok (((Window.print ⟨10, 5, 0, 0, 7, [], 0⟩ "hi" none).1.attrset0, ⟨256, 1, []⟩),
               (Window.print ⟨10, 5, 0, 0, 7, [], 0⟩ "hi" none).2) :=
  ⟨by decide,
   safe_print_refines_print ⟨10, 5, 0, 0, 7, [], 0⟩ ⟨256, 1, []⟩ "hi" none (by decide)⟩

/-- A matched mode sequence is nonempty. -/
theorem modeMatchLen_pos (cs : List Char) (n : Nat)
    (h : modeMatchLen cs = some n) : 0 < n := by
  unfold modeMatchLen at h
  split at h
  · obtain ⟨m, hm, heq⟩ := Option.map_eq_some'.mp h
    omega
  · exact Option.noConfusion h

/-- Every interpreter that returns normally returns a position strictly
past the escape position it was given; a raising interpreter ends the call
instead, read here as the default advance. -/
theorem interpret_advances (t : Interp) (s : List Char) (p : Nat)
    (w : Window) (r : Curses) :
    p < posOf (interpret t s p w r) (p + 1) := by
  cases t with
  | mode =>
    simp only [interpret, mode_interpret]
    cases hm : modeMatchLen (s.drop p) with
    | none => exact Nat.lt_succ_self p
    | some len =>
      have := modeMatchLen_pos _ _ hm
      show p < p + len
      omega
  | move =>
    simp only [interpret, move_interpret]
    cases hm : moveMatch (s.drop p) with
    | none => exact Nat.lt_succ_self p
    | some yx => exact Nat.lt_succ_self p
  | clear =>
    simp only [interpret, clear_interpret]
    cases hm : clearMatch (s.drop p) with
    | none => exact Nat.lt_succ_self p
    | some d =>
      show p < p + 4
      omega
  | graphics =>
    simp only [interpret, graphics_interpret]
    cases hm : graphicsMatch (s.drop p) with
    | none => exact Nat.lt_succ_self p
    | some mid =>
      show p < p + 7
      omega
  | dflt =>
    simp only [interpret, default_interpret]
    cases hd : s.drop p with
    | nil => exact Nat.lt_succ_self p
    | cons c t => exact Nat.lt_succ_self p

/-- An escape found from a start position lies at or after it. -/
theorem findEsc_ge (s : List Char) (start e : Nat)
    (h : findEsc s start = some e) : start ≤ e := by
  unfold findEsc at h
  cases hi : (s.drop start).findIdx? (fun c => c = '\x1b') with
  | none => rw [hi] at h; exact Option.noConfusion h
  | some i => rw [hi] at h; injection h with h2; omega

/-- Dispatch step of the safe_print loop: when the selected interpreter
raises, the loop ends with the propagated error; when it returns, the scan
position advanced strictly, so the recursive call is covered by the fuel
induction hypothesis. -/
theorem interpret_step_isSome (fuel : Nat) (s : List Char) (w1 : Window) (r : Curses)
    (esc curPos : Nat) (tag next : Interp)
    (hfuel : s.length - curPos < fuel + 1) (hlt : curPos < s.length) (hesc : curPos ≤ esc)
    (ih : ∀ (s2 : List Char) (w2 : Window) (r2 : Curses) (p2 : Nat) (c2 : Interp),
      s2.length - p2 < fuel → (safePrintAux fuel s2 w2 r2 p2 c2).isSome = true) :
    (match interpret tag s esc w1 r with
      | Except.error e => some (Except.error e)
      | Except.ok ((w2, r2), pos2) => safePrintAux fuel s w2 r2 pos2 next).isSome = true := by
  cases hi : interpret tag s esc w1 r with
  | error e => rfl
  | ok res =>
    obtain ⟨⟨w2, r2⟩, pos2⟩ := res
    show (safePrintAux fuel s w2 r2 pos2 next).isSome = true
    apply ih
    have hadv := interpret_advances tag s esc w1 r
    rw [hi] at hadv
    simp only [posOf] at hadv
    omega

/-- With fuel exceeding the number of characters left to scan, the
safe_print loop always delivers a result: each iteration either ends the
call or advances the scan position strictly. -/
theorem safePrintAux_isSome : ∀ (fuel : Nat) (s : List Char) (w : Window)
    (r : Curses) (curPos : Nat) (cur : Interp), s.length - curPos < fuel →
    (safePrintAux fuel s w r curPos cur).isSome = true := by
  intro fuel
  induction fuel with
  | zero => intro s w r c i h; omega
  | succ fuel ih =>
    intro s w r curPos cur h
    simp only [safePrintAux]
    split_ifs with hlt
    · cases hf : findEsc s curPos with
      | none => rfl
      | some esc =>
        have hesc := findEsc_ge s curPos esc hf
        by_cases hseg : 0 < (List.take (esc - curPos) (List.drop curPos s)).length
        · simp only [if_pos hseg]
          by_cases hpr :
              (printLines w (splitlines (List.take (esc - curPos) (List.drop curPos s)) [])).2
                = false
          · rw [if_pos ⟨hseg, hpr⟩]
            rfl
          · rw [if_neg (fun hc => hpr hc.2)]
            exact interpret_step_isSome fuel s _ r esc curPos _ _ h hlt hesc ih
        · simp only [if_neg hseg]
          rw [if_neg (fun hc => hseg hc.1)]
          exact interpret_step_isSome fuel s _ r esc curPos _ _ h hlt hesc ih
    · rfl

/-- C8.  safe_print terminates on every finite input: with fuel one more
than the string length the loop always delivers a result from any start
position, because on each iteration either no escape marker remains and
the loop exits after printing the rest, or the selected interpreter
returns a position strictly past the marker (the default interpreter,
which recognizes anything, advances by exactly one). -/
theorem safe_print_terminates :
    (∀ (s : List Char) (w : Window) (r : Curses) (curPos : Nat) (cur : Interp),
      (safePrintAux (s.length + 1) s w r curPos cur).isSome = true)
    ∧ (∀ (t : Interp) (s : List Char) (p : Nat) (w : Window) (r : Curses),
        p < posOf (interpret t s p w r) (p + 1))
    ∧ (∀ (s : List Char) (p : Nat), canInterpret Interp.dflt s p = true) :=
  ⟨fun s w r curPos cur => safePrintAux_isSome (s.length + 1) s w r curPos cur (by omega),
   interpret_advances,
   fun s p => rfl⟩
